import Mathlib

/-!
# Goal-Genie: the plan-text parser and the checklist state of `GoalSetup.jsx`

A shallow embedding of `parseTasks`, `handleCheckboxChange` and `handleSubmit`
from `src/frontend/src/pages/GoalSetup.jsx`, with the string primitives of
JavaScript they rely on (`split`, `slice`, `trim`, `startsWith`, `endsWith`).

JavaScript strings are modelled as lists of characters.  Every separator and
marker the code uses (`'\n'`, `'*'`, `':'`, `'•'`, `'-'`) is a single UTF-16
code unit, so splitting and slicing act on characters exactly as they act on
code units.
-/

namespace GoalGenie

/-- A JavaScript string, as the list of its characters. -/
abbrev Str := List Char

/-! ## String primitives -/

/-- The characters removed by `String.prototype.trim`: ECMAScript `WhiteSpace`
and `LineTerminator`. -/
def isWhiteSpace (c : Char) : Bool :=
  c.toNat == 0x09 || c.toNat == 0x0A || c.toNat == 0x0B || c.toNat == 0x0C ||
  c.toNat == 0x0D || c.toNat == 0x20 || c.toNat == 0xA0 || c.toNat == 0x1680 ||
  (0x2000 ≤ c.toNat && c.toNat ≤ 0x200A) ||
  c.toNat == 0x2028 || c.toNat == 0x2029 || c.toNat == 0x202F ||
  c.toNat == 0x205F || c.toNat == 0x3000 || c.toNat == 0xFEFF

/-- Leading white space removed. -/
def trimStart (s : Str) : Str := s.dropWhile isWhiteSpace

/-- Trailing white space removed. -/
def trimEnd (s : Str) : Str := (s.reverse.dropWhile isWhiteSpace).reverse

/-- The method `s.trim()`. -/
def trim (s : Str) : Str := trimEnd (trimStart s)

/-- The method `s.split(sep)` for a one-character separator: the pieces between
the occurrences of `sep`, never an empty array. -/
def split (sep : Char) : Str → List Str
  | [] => [[]]
  | c :: cs =>
    if c = sep then [] :: split sep cs
    else
      match split sep cs with
      | [] => [[c]]
      | p :: ps => (c :: p) :: ps

/-- The method `s.startsWith(p)`. -/
def startsWith (p s : Str) : Bool := p.isPrefixOf s

/-- The method `s.endsWith(p)`. -/
def endsWith (p s : Str) : Bool := p.isSuffixOf s

/-- A relative index of `slice` resolved against the length: a negative index
counts from the end, and the result is clamped to `0 .. len`. -/
def sliceIndex (len : Nat) (i : Int) : Nat :=
  if i < 0 then (len + i).toNat else min i.toNat len

/-- The method `s.slice(start, end)`; `none` for an omitted `end`. -/
def slice (s : Str) (start : Int) (stop : Option Int) : Str :=
  let a := sliceIndex s.length start
  let b := match stop with
    | none => s.length
    | some e => sliceIndex s.length e
  (s.drop a).take (b - a)

/-! ## The display model -/

/-- One task of a section.  `mainTask` is `none` for JavaScript `undefined`. -/
structure Task where
  mainTask : Option Str
  subtasks : List Str
  deriving DecidableEq, Repr

/-- One titled section. -/
structure Section where
  title : Str
  tasks : List Task
  deriving DecidableEq, Repr

/-- The argument of `parseTasks`: a string or a missing value. -/
inductive JsArg where
  | null
  | undefined
  | str (s : Str)
  deriving DecidableEq, Repr

/-- The only fault of `parseTasks`: `currentSection.tasks` read while
`currentSection` is `null` (a `TypeError`). -/
inductive Fault where
  | nullSection
  deriving DecidableEq, Repr

/-! ## `parseTasks` -/

/-- The test of line 67: `line.startsWith('**') && line.endsWith('**')`. -/
def isSectionHeader (line : Str) : Bool :=
  startsWith ['*', '*'] line && endsWith ['*', '*'] line

/-- The test of line 75, reached only when the test of line 67 failed. -/
def isTaskLine (line : Str) : Bool :=
  !isSectionHeader line && startsWith ['*'] line

/-- The title of line 72: `line.slice(2, -2).trim()`. -/
def sectionTitle (line : Str) : Str := trim (slice line 2 (some (-2)))

/-- The task of lines 76-78, built from a line that starts with `*`. -/
def parseTaskLine (line : Str) : Task :=
  let taskLine := trim (slice line 1 none)
  let parts := (split ':' taskLine).map trim
  let mainTask := parts[0]?
  let subtasksStr := parts[1]?
  let subtasks :=
    match subtasksStr with
    | none => []
    | some [] => []
    | some (c :: cs) => (split '•' (c :: cs)).map trim
  { mainTask := mainTask, subtasks := subtasks }

/-- The array `sections` after `if (currentSection) sections.push(currentSection)`. -/
def pushCurrent (sections : List Section) : Option Section → List Section
  | none => sections
  | some cur => sections ++ [cur]

/-- The loop of lines 66-85 followed by lines 87-91, on the lines still to be
read, the array `sections` and the variable `currentSection`. -/
def parseLoop : List Str → List Section → Option Section → Except Fault (List Section)
  | [], sections, current => .ok (pushCurrent sections current)
  | line :: rest, sections, current =>
    if startsWith ['*', '*'] line && endsWith ['*', '*'] line then
      parseLoop rest (pushCurrent sections current)
        (some { title := sectionTitle line, tasks := [] })
    else if startsWith ['*'] line then
      match current with
      | none => .error Fault.nullSection
      | some cur =>
        parseLoop rest sections (some { cur with tasks := cur.tasks ++ [parseTaskLine line] })
    else parseLoop rest sections current

/-- The function `parseTasks`. -/
def parseTasks : JsArg → Except Fault (List Section)
  | .null => .ok []
  | .undefined => .ok []
  | .str [] => .ok []
  | .str (c :: cs) => parseLoop (split '\n' (c :: cs)) [] none

deriving instance DecidableEq for Except

/-! ## The checklist state -/

/-- The values held by the object `checkedTasks`: booleans written by
`handleCheckboxChange`, and the empty bucket `{}` written by `handleSubmit`. -/
inductive JsVal where
  | bool (b : Bool)
  | object
  deriving DecidableEq, Repr

/-- The object `checkedTasks`: for each property key the value it holds, or
`none` when the key is absent (a read gives `undefined`). -/
abbrev CheckedTasks := Str → Option JsVal

/-- JavaScript truthiness of a property read: `undefined` and `false` are falsy,
`true` and every object are truthy. -/
def toBoolean : Option JsVal → Bool
  | none => false
  | some (.bool b) => b
  | some .object => true

/-- The string of a non-negative integer inside a template literal: its decimal
digits (the form `Number.prototype.toString` gives every integer below `10^21`). -/
def numberToString (n : Nat) : Str := Nat.toDigits 10 n

/-- The key of lines 97-99 (and of the reads of lines 249 and 261):
`day-section-task-subtask` when `subtaskIndex !== undefined`, else
`day-section-task`. -/
def addressKey (dayIndex sectionIndex taskIndex : Nat) (subtaskIndex : Option Nat) : Str :=
  match subtaskIndex with
  | some sub =>
    numberToString dayIndex ++ ['-'] ++ numberToString sectionIndex ++ ['-'] ++
      numberToString taskIndex ++ ['-'] ++ numberToString sub
  | none =>
    numberToString dayIndex ++ ['-'] ++ numberToString sectionIndex ++ ['-'] ++
      numberToString taskIndex

/-- The assignment `obj[key] = value` on a copy of `obj`. -/
def setKey (obj : CheckedTasks) (key : Str) (value : JsVal) : CheckedTasks :=
  fun k => if k = key then some value else obj k

/-- The updater passed to `setCheckedTasks` by `handleCheckboxChange`:
the next state from the previous one. -/
def handleCheckboxChange (prev : CheckedTasks)
    (dayIndex sectionIndex taskIndex : Nat) (subtaskIndex : Option Nat) : CheckedTasks :=
  let key := addressKey dayIndex sectionIndex taskIndex subtaskIndex
  setKey prev key (.bool (!toBoolean (prev key)))

/-- The expression `checkedTasks[key] || false` of lines 249 and 261. -/
def readChecked (checkedTasks : CheckedTasks) (key : Str) : JsVal :=
  match checkedTasks key with
  | none => .bool false
  | some (.bool b) => .bool b
  | some .object => .object

/-- Whether the checkbox of an address shows as checked: the `checked` property
is the truthiness of `checkedTasks[key] || false`. -/
def isChecked (checkedTasks : CheckedTasks)
    (dayIndex sectionIndex taskIndex : Nat) (subtaskIndex : Option Nat) : Bool :=
  toBoolean (some (readChecked checkedTasks
    (addressKey dayIndex sectionIndex taskIndex subtaskIndex)))

/-- A checkbox address: the four arguments of `handleCheckboxChange`. -/
structure Address where
  dayIndex : Nat
  sectionIndex : Nat
  taskIndex : Nat
  subtaskIndex : Option Nat
  deriving DecidableEq, Repr

/-- The state after the checkboxes of the listed addresses were clicked, one
after the other. -/
def toggleAll (checkedTasks : CheckedTasks) : List Address → CheckedTasks
  | [] => checkedTasks
  | a :: rest =>
    toggleAll (handleCheckboxChange checkedTasks a.dayIndex a.sectionIndex a.taskIndex
      a.subtaskIndex) rest

/-! ## `handleSubmit` -/

/-- One entry of `dailyPlan`. -/
structure DayPlan where
  day : Nat
  task : Str
  deriving DecidableEq, Repr

/-- The result object of `createGoal`; `dailyPlan` is `none` when absent. -/
structure GoalResult where
  dailyPlan : Option (List DayPlan)
  deriving DecidableEq, Repr

/-- How the awaited call `createGoal(...)` ends. -/
inductive CreateGoalOutcome where
  | rejected
  | resolved (result : GoalResult)
  deriving DecidableEq, Repr

/-- The component state `handleSubmit` writes. -/
structure UiState where
  plan : Option (List DayPlan)
  checkedTasks : CheckedTasks
  loading : Bool

/-- The object `initialChecks` of lines 46-49: `initialChecks[dayIndex] = {}` for
every index of `dailyPlan`, in order. -/
def initialChecks (dailyPlan : List DayPlan) : CheckedTasks :=
  (List.range dailyPlan.length).foldl
    (fun acc dayIndex => setKey acc (numberToString dayIndex) .object) (fun _ => none)

/-- The body of the `try` block of `handleSubmit` after the call has ended, with
the `catch` that only logs. -/
def submitBody (st : UiState) : CreateGoalOutcome → UiState
  | .rejected => st
  | .resolved result =>
    match result.dailyPlan with
    | some dailyPlan =>
      { st with plan := some dailyPlan, checkedTasks := initialChecks dailyPlan }
    | none => st

/-- The function `handleSubmit`: `setLoading(true)`, the `try`/`catch`, and
`setLoading(false)` in `finally`. -/
def handleSubmit (st : UiState) (outcome : CreateGoalOutcome) : UiState :=
  let started := { st with loading := true }
  let ended := submitBody started outcome
  { ended with loading := false }

/-! ## Vocabulary of the statements -/

/-- The lines of a header-led block list, in source order: each block is a
header line followed by its body lines. -/
def blockLines : List (Str × List Str) → List Str
  | [] => []
  | b :: bs => b.1 :: (b.2 ++ blockLines bs)

/-- The section a block stands for: the title of its header and one task per
task line of its body. -/
def sectionOfBlock (b : Str × List Str) : Section :=
  { title := sectionTitle b.1, tasks := (b.2.filter isTaskLine).map parseTaskLine }

/-- Some task line stands before every section header: a prefix of the lines
without header, followed by a task line. -/
def TaskBeforeHeader (lines : List Str) : Prop :=
  ∃ pre l post, lines = pre ++ l :: post ∧
    (∀ x ∈ pre, isSectionHeader x = false) ∧ isTaskLine l = true

/-- The lines split into a leading run `pre` of ignored lines and the blocks
`bs`, each a header line followed by the lines up to the next header. -/
def HeaderLedBlocks (lines pre : List Str) (bs : List (Str × List Str)) : Prop :=
  lines = pre ++ blockLines bs ∧
    (∀ l ∈ pre, isSectionHeader l = false ∧ isTaskLine l = false) ∧
    (∀ b ∈ bs, isSectionHeader b.1 = true ∧ ∀ l ∈ b.2, isSectionHeader l = false)

/-- The first line that is a header or a task line is a task line. -/
def firstMarkedIsTask : List Str → Bool
  | [] => false
  | l :: ls =>
    if isSectionHeader l then false
    else if isTaskLine l then true
    else firstMarkedIsTask ls

/-- A line that starts with the two-character marker and ends with it, the two
occurrences being free to overlap. -/
def HasBothMarkers (line : Str) : Prop :=
  (∃ r, line = '*' :: '*' :: r) ∧ (∃ q, line = q ++ ['*', '*'])

/-- The section-header test as the specification words it (section 4.1): the
line starts and ends with `**` and has length at least 4. -/
def specIsSectionHeader (line : Str) : Bool :=
  startsWith ['*', '*'] line && endsWith ['*', '*'] line && decide (4 ≤ line.length)

/-- The task-line test as the specification words it: the line starts with `*`
and is not a section header in the sense of `specIsSectionHeader`. -/
def specIsTaskLine (line : Str) : Bool :=
  !specIsSectionHeader line && startsWith ['*'] line

/-- The number a string of decimal digits stands for, read from the left. -/
def decimalValue (s : Str) : Nat := s.foldl (fun acc c => 10 * acc + (c.toNat - 48)) 0

/-- The lines of an argument of `parseTasks`; a missing value has none. -/
def linesOf : JsArg → List Str
  | .null => []
  | .undefined => []
  | .str s => split '\n' s

/-! ## Lemmas: `split` -/

theorem split_ne_nil (sep : Char) (s : Str) : split sep s ≠ [] := by
  cases s with
  | nil => simp [split]
  | cons c cs =>
    simp only [split]
    split
    · simp
    · split <;> simp

theorem split_of_not_mem (sep : Char) : ∀ (a : Str), sep ∉ a → split sep a = [a]
  | [], _ => rfl
  | c :: cs, h => by
    have hc : c ≠ sep := fun e => h (by simp [e])
    have hcs : sep ∉ cs := fun e => h (by simp [e])
    simp [split, hc, split_of_not_mem sep cs hcs]

theorem split_append_sep (sep : Char) : ∀ (a rest : Str), sep ∉ a →
    split sep (a ++ sep :: rest) = a :: split sep rest
  | [], rest, _ => by simp [split]
  | c :: cs, rest, h => by
    have hc : c ≠ sep := fun e => h (by simp [e])
    have hcs : sep ∉ cs := fun e => h (by simp [e])
    simp [split, hc, split_append_sep sep cs rest hcs]

/-! ## Lemmas: decimal digits and address keys -/

theorem digitChar_ne_dash : ∀ k, k < 10 → Nat.digitChar k ≠ '-' := by decide

theorem digitChar_value : ∀ k, k < 10 → (Nat.digitChar k).toNat - 48 = k := by decide

theorem toDigitsCore_no_dash (fuel : Nat) : ∀ (n : Nat) (ds : List Char),
    '-' ∉ ds → '-' ∉ Nat.toDigitsCore 10 fuel n ds := by
  induction fuel with
  | zero => intro n ds h; simpa [Nat.toDigitsCore] using h
  | succ fuel ih =>
    intro n ds h
    have hd : '-' ∉ Nat.digitChar (n % 10) :: ds := by
      simp only [List.mem_cons, not_or]
      exact ⟨fun e => digitChar_ne_dash (n % 10) (Nat.mod_lt _ (by decide)) e.symm, h⟩
    simp only [Nat.toDigitsCore]
    split
    · exact hd
    · exact ih _ _ hd

theorem toDigitsCore_value (fuel : Nat) : ∀ (n : Nat) (ds : List Char), n < fuel →
    (Nat.toDigitsCore 10 fuel n ds).foldl (fun acc c => 10 * acc + (c.toNat - 48)) 0
      = ds.foldl (fun acc c => 10 * acc + (c.toNat - 48)) n := by
  induction fuel with
  | zero => intro n ds h; omega
  | succ fuel ih =>
    intro n ds h
    simp only [Nat.toDigitsCore]
    have hv := digitChar_value (n % 10) (Nat.mod_lt _ (by decide))
    split
    · rename_i h0
      simp only [List.foldl_cons, hv]
      congr 1; omega
    · rename_i h0
      rw [ih (n / 10) _ (by omega)]
      simp only [List.foldl_cons, hv]
      congr 1; omega

theorem numberToString_no_dash (n : Nat) : '-' ∉ numberToString n :=
  toDigitsCore_no_dash _ _ _ (by simp)

theorem decimalValue_numberToString (n : Nat) : decimalValue (numberToString n) = n := by
  unfold decimalValue numberToString Nat.toDigits
  rw [toDigitsCore_value _ _ _ (Nat.lt_succ_self n)]
  rfl

theorem numberToString_injective {m n : Nat} (h : numberToString m = numberToString n) :
    m = n := by
  have := congrArg decimalValue h
  simpa [decimalValue_numberToString] using this
theorem split_addressKey (d s t : Nat) (u : Option Nat) :
    split '-' (addressKey d s t u) =
      match u with
      | some sub => [numberToString d, numberToString s, numberToString t, numberToString sub]
      | none => [numberToString d, numberToString s, numberToString t] := by
  cases u with
  | none =>
    simp only [addressKey, List.append_assoc, List.singleton_append, List.cons_append, List.nil_append]
    rw [split_append_sep _ _ _ (numberToString_no_dash d),
      split_append_sep _ _ _ (numberToString_no_dash s),
      split_of_not_mem _ _ (numberToString_no_dash t)]
  | some sub =>
    simp only [addressKey, List.append_assoc, List.singleton_append, List.cons_append, List.nil_append]
    rw [split_append_sep _ _ _ (numberToString_no_dash d),
      split_append_sep _ _ _ (numberToString_no_dash s),
      split_append_sep _ _ _ (numberToString_no_dash t),
      split_of_not_mem _ _ (numberToString_no_dash sub)]

theorem addressKey_inj {d s t : Nat} {u : Option Nat} {d' s' t' : Nat} {u' : Option Nat}
    (h : addressKey d s t u = addressKey d' s' t' u') :
    d = d' ∧ s = s' ∧ t = t' ∧ u = u' := by
  have hs := congrArg (split '-') h
  rw [split_addressKey, split_addressKey] at hs
  cases u <;> cases u' <;> simp at hs
  · exact ⟨numberToString_injective hs.1, numberToString_injective hs.2.1,
      numberToString_injective hs.2.2, rfl⟩
  · obtain ⟨h1, h2, h3, h4⟩ := hs
    rw [numberToString_injective h1, numberToString_injective h2,
      numberToString_injective h3, numberToString_injective h4]
    exact ⟨rfl, rfl, rfl, rfl⟩

theorem addressKey_ne_numberToString (d s t : Nat) (u : Option Nat) (i : Nat) :
    addressKey d s t u ≠ numberToString i := by
  intro h
  have hs := congrArg (split '-') h
  rw [split_addressKey, split_of_not_mem _ _ (numberToString_no_dash i)] at hs
  cases u <;> simp at hs
/-! ## Lemmas: the checklist state -/

theorem setKey_same (obj : CheckedTasks) (key : Str) (v : JsVal) :
    setKey obj key v key = some v := by
  simp [setKey]

theorem setKey_other (obj : CheckedTasks) (key k : Str) (v : JsVal) (h : k ≠ key) :
    setKey obj key v k = obj k := by
  simp [setKey, h]

theorem toBoolean_readChecked (st : CheckedTasks) (key : Str) :
    toBoolean (some (readChecked st key)) = toBoolean (st key) := by
  unfold readChecked
  cases h : st key with
  | none => rfl
  | some v => cases v <;> rfl

theorem foldl_setKey_object (key : Str) : ∀ (idx : List Nat) (acc : CheckedTasks),
    (idx.foldl (fun acc dayIndex => setKey acc (numberToString dayIndex) .object) acc) key =
      if ∃ i ∈ idx, key = numberToString i then some .object else acc key
  | [], acc => by simp
  | i :: rest, acc => by
    rw [List.foldl_cons, foldl_setKey_object key rest]
    by_cases h1 : ∃ j ∈ rest, key = numberToString j
    · have h2 : ∃ j ∈ i :: rest, key = numberToString j := by
        obtain ⟨j, hj, e⟩ := h1
        exact ⟨j, List.mem_cons_of_mem _ hj, e⟩
      rw [if_pos h1, if_pos h2]
    · rw [if_neg h1]
      by_cases h3 : key = numberToString i
      · have h2 : ∃ j ∈ i :: rest, key = numberToString j := ⟨i, List.mem_cons_self _ _, h3⟩
        rw [if_pos h2, h3, setKey_same]
      · have h2 : ¬ ∃ j ∈ i :: rest, key = numberToString j := by
          rintro ⟨j, hj, e⟩
          rcases List.mem_cons.1 hj with rfl | hj
          · exact h3 e
          · exact h1 ⟨j, hj, e⟩
        rw [if_neg h2, setKey_other _ _ _ _ h3]

theorem initialChecks_apply (dailyPlan : List DayPlan) (key : Str) :
    initialChecks dailyPlan key =
      if ∃ i, i < dailyPlan.length ∧ key = numberToString i then some .object else none := by
  unfold initialChecks
  rw [foldl_setKey_object]
  simp only [List.mem_range]

theorem initialChecks_addressKey (dailyPlan : List DayPlan) (d s t : Nat) (u : Option Nat) :
    initialChecks dailyPlan (addressKey d s t u) = none := by
  rw [initialChecks_apply, if_neg]
  rintro ⟨i, -, e⟩
  exact addressKey_ne_numberToString d s t u i e

theorem handleCheckboxChange_other (st : CheckedTasks) (d s t : Nat) (u : Option Nat)
    (key : Str) (h : key ≠ addressKey d s t u) :
    handleCheckboxChange st d s t u key = st key := by
  simp [handleCheckboxChange, setKey, h]

theorem toggleAll_other (key : Str) : ∀ (clicks : List Address) (st : CheckedTasks),
    (∀ b ∈ clicks, key ≠ addressKey b.dayIndex b.sectionIndex b.taskIndex b.subtaskIndex) →
    toggleAll st clicks key = st key
  | [], _, _ => rfl
  | b :: rest, st, h => by
    rw [toggleAll, toggleAll_other key rest _ (fun c hc => h c (List.mem_cons_of_mem _ hc)),
      handleCheckboxChange_other _ _ _ _ _ _ (h b (List.mem_cons_self _ _))]

/-! ## Lemmas: `trim`, `slice` and the task line -/

theorem dropWhile_append_of_not (p : Char → Bool) (c : Char) (hc : p c = false) :
    ∀ (a b : Str), List.dropWhile p (a ++ c :: b) = List.dropWhile p a ++ c :: b
  | [], b => by simp [List.dropWhile, hc]
  | x :: a, b => by
    by_cases hx : p x = true
    · simp [List.dropWhile, hx, dropWhile_append_of_not p c hc a b]
    · simp [List.dropWhile, hx]

theorem trimStart_append_of_not (c : Char) (hc : isWhiteSpace c = false) (a b : Str) :
    trimStart (a ++ c :: b) = trimStart a ++ c :: b :=
  dropWhile_append_of_not _ c hc a b

theorem trimEnd_append_of_not (c : Char) (hc : isWhiteSpace c = false) (a b : Str) :
    trimEnd (a ++ c :: b) = a ++ c :: trimEnd b := by
  unfold trimEnd
  rw [List.reverse_append, List.reverse_cons, List.append_assoc, List.singleton_append,
    dropWhile_append_of_not _ c hc]
  simp

theorem trimStart_idem (s : Str) : trimStart (trimStart s) = trimStart s := by
  unfold trimStart
  exact List.dropWhile_idempotent _ _

theorem trimEnd_cons (c : Char) (cs : Str) :
    trimEnd (c :: cs) =
      if trimEnd cs = [] then (if isWhiteSpace c then [] else [c]) else c :: trimEnd cs := by
  unfold trimEnd
  rw [List.reverse_cons]
  generalize cs.reverse = r
  induction r with
  | nil => by_cases h : isWhiteSpace c = true <;> simp [List.dropWhile, h]
  | cons x r ih =>
    by_cases hx : isWhiteSpace x = true
    · simpa [List.dropWhile, hx] using ih
    · simp [List.dropWhile, hx]

theorem trimEnd_trimStart_comm : ∀ (s : Str), trimEnd (trimStart s) = trimStart (trimEnd s)
  | [] => rfl
  | c :: cs => by
    have ih := trimEnd_trimStart_comm cs
    by_cases hc : isWhiteSpace c = true
    · have h1 : trimStart (c :: cs) = trimStart cs := by simp [trimStart, List.dropWhile, hc]
      rw [h1, ih, trimEnd_cons]
      by_cases he : trimEnd cs = []
      · simp [he, hc, trimStart]
      · simp [he, trimStart, List.dropWhile, hc]
    · have h1 : trimStart (c :: cs) = c :: cs := by simp [trimStart, List.dropWhile, hc]
      rw [h1, trimEnd_cons]
      by_cases he : trimEnd cs = []
      · simp [he, hc, trimStart, List.dropWhile]
      · simp [he, trimStart, List.dropWhile, hc]

theorem trimEnd_idem (s : Str) : trimEnd (trimEnd s) = trimEnd s := by
  unfold trimEnd
  simp [List.dropWhile_idempotent]

theorem trim_trimStart (s : Str) : trim (trimStart s) = trim s := by
  unfold trim
  rw [trimStart_idem]

theorem trim_trimEnd (s : Str) : trim (trimEnd s) = trim s := by
  unfold trim
  rw [← trimEnd_trimStart_comm, trimEnd_idem]

theorem trim_idem (s : Str) : trim (trim s) = trim s := by
  conv_lhs => unfold trim
  rw [← trim, trim_trimEnd, trim_trimStart]

theorem not_mem_trimStart (c : Char) (s : Str) (h : c ∉ s) : c ∉ trimStart s :=
  fun hm => h ((List.dropWhile_sublist _).subset hm)

theorem not_mem_trimEnd (c : Char) (s : Str) (h : c ∉ s) : c ∉ trimEnd s := by
  intro hm
  unfold trimEnd at hm
  rw [List.mem_reverse] at hm
  exact h (List.mem_reverse.1 ((List.dropWhile_sublist _).subset hm))

theorem not_mem_trim (c : Char) (s : Str) (h : c ∉ s) : c ∉ trim s :=
  not_mem_trimEnd c _ (not_mem_trimStart c s h)

theorem slice_one (c : Char) (rest : Str) : slice (c :: rest) 1 none = rest := by
  simp [slice, sliceIndex]

theorem trim_append_colon (a b : Str) :
    trim (a ++ ':' :: b) = trimStart a ++ ':' :: trimEnd b := by
  unfold trim
  rw [trimStart_append_of_not ':' (by decide), trimEnd_append_of_not ':' (by decide)]
theorem sliceHeader (m : Str) : slice ('*' :: '*' :: (m ++ ['*', '*'])) 2 (some (-2)) = m := by
  have h1 : sliceIndex (m.length + 2 + 1 + 1) 2 = 2 := by
    simp [sliceIndex]
  have h2 : sliceIndex (m.length + 2 + 1 + 1) (-2) = m.length + 2 := by
    simp only [sliceIndex]
    rw [if_pos (by decide)]
    omega
  simp only [slice, List.length_cons, List.length_append, List.length_nil, h1, h2]
  simp

theorem parseTaskLine_no_colon (rest : Str) (h : ':' ∉ rest) :
    parseTaskLine ('*' :: rest) = { mainTask := some (trim rest), subtasks := [] } := by
  simp [parseTaskLine, slice_one, split_of_not_mem _ _ (not_mem_trim _ _ h), trim_idem]

theorem subtasks_match (s : Str) :
    (match some s with
      | none => []
      | some [] => []
      | some (c :: cs) => (split '•' (c :: cs)).map trim) =
    if s = [] then [] else (split '•' s).map trim := by
  cases s <;> simp

theorem parseTaskLine_one_colon (a b : Str) (ha : ':' ∉ a) (hb : ':' ∉ b) :
    parseTaskLine ('*' :: (a ++ ':' :: b)) =
      { mainTask := some (trim a),
        subtasks := if trim b = [] then [] else (split '•' (trim b)).map trim } := by
  simp only [parseTaskLine, slice_one, trim_append_colon]
  rw [split_append_sep _ _ _ (not_mem_trimStart _ _ ha),
    split_of_not_mem _ _ (not_mem_trimEnd _ _ hb)]
  simp only [List.map_cons, List.map_nil, trim_trimStart, trim_trimEnd]
  rw [← subtasks_match]
  rfl

theorem parseTaskLine_two_colons (a b c : Str) (ha : ':' ∉ a) (hb : ':' ∉ b) :
    parseTaskLine ('*' :: (a ++ ':' :: (b ++ ':' :: c))) =
      { mainTask := some (trim a),
        subtasks := if trim b = [] then [] else (split '•' (trim b)).map trim } := by
  simp only [parseTaskLine, slice_one, trim_append_colon]
  rw [trimEnd_append_of_not ':' (by decide),
    split_append_sep _ _ _ (not_mem_trimStart _ _ ha), split_append_sep _ _ _ hb]
  simp only [List.map_cons, trim_trimStart, List.getElem?_cons_zero, List.getElem?_cons_succ]
  rw [← subtasks_match]
  rfl

/-! ## Lemmas: the loop of `parseTasks` -/

theorem parseLoop_header (line : Str) (rest : List Str) (sections : List Section)
    (current : Option Section) (h : isSectionHeader line = true) :
    parseLoop (line :: rest) sections current =
      parseLoop rest (pushCurrent sections current)
        (some { title := sectionTitle line, tasks := [] }) := by
  unfold isSectionHeader at h
  simp [parseLoop, h]

theorem parseLoop_task (line : Str) (rest : List Str) (sections : List Section)
    (cur : Section) (h : isTaskLine line = true) :
    parseLoop (line :: rest) sections (some cur) =
      parseLoop rest sections (some { cur with tasks := cur.tasks ++ [parseTaskLine line] }) := by
  simp only [isTaskLine, isSectionHeader, Bool.and_eq_true, Bool.not_eq_true'] at h
  simp [parseLoop, h.1, h.2]

theorem parseLoop_task_null (line : Str) (rest : List Str) (sections : List Section)
    (h : isTaskLine line = true) :
    parseLoop (line :: rest) sections none = .error Fault.nullSection := by
  simp only [isTaskLine, isSectionHeader, Bool.and_eq_true, Bool.not_eq_true'] at h
  simp [parseLoop, h.1, h.2]

theorem parseLoop_ignored (line : Str) (rest : List Str) (sections : List Section)
    (current : Option Section) (h1 : isSectionHeader line = false)
    (h2 : isTaskLine line = false) :
    parseLoop (line :: rest) sections current = parseLoop rest sections current := by
  simp only [isTaskLine, h1, Bool.not_false, Bool.true_and] at h2
  unfold isSectionHeader at h1
  simp [parseLoop, h1, h2]

theorem parseLoop_some_ok : ∀ (lines : List Str) (sections : List Section) (cur : Section),
    ∃ r, parseLoop lines sections (some cur) = .ok r
  | [], sections, cur => ⟨_, rfl⟩
  | line :: rest, sections, cur => by
    by_cases h1 : isSectionHeader line = true
    · rw [parseLoop_header _ _ _ _ h1]
      exact parseLoop_some_ok rest _ _
    · by_cases h2 : isTaskLine line = true
      · rw [parseLoop_task _ _ _ _ h2]
        exact parseLoop_some_ok rest _ _
      · rw [parseLoop_ignored _ _ _ _ (by simpa using h1) (by simpa using h2)]
        exact parseLoop_some_ok rest _ _

theorem taskBeforeHeader_cons (line : Str) (rest : List Str) :
    TaskBeforeHeader (line :: rest) ↔
      isTaskLine line = true ∨ (isSectionHeader line = false ∧ TaskBeforeHeader rest) := by
  constructor
  · rintro ⟨pre, l, post, e, hpre, hl⟩
    cases pre with
    | nil =>
      simp only [List.nil_append, List.cons.injEq] at e
      exact Or.inl (e.1 ▸ hl)
    | cons x pre =>
      simp only [List.cons_append, List.cons.injEq] at e
      refine Or.inr ⟨e.1 ▸ hpre x (List.mem_cons_self _ _), pre, l, post, e.2, ?_, hl⟩
      intro y hy
      exact hpre y (List.mem_cons_of_mem _ hy)
  · rintro (h | ⟨h, pre, l, post, e, hpre, hl⟩)
    · exact ⟨[], line, rest, rfl, by simp, h⟩
    · refine ⟨line :: pre, l, post, by simp [e], ?_, hl⟩
      intro y hy
      rcases List.mem_cons.1 hy with rfl | hy
      · exact h
      · exact hpre y hy

theorem not_taskBeforeHeader_nil : ¬ TaskBeforeHeader [] := by
  rintro ⟨pre, l, post, e, -, -⟩
  cases pre <;> simp at e

theorem isTaskLine_of_header (line : Str) (h : isSectionHeader line = true) :
    isTaskLine line = false := by
  simp [isTaskLine, h]

theorem taskBeforeHeader_iff : ∀ (lines : List Str),
    TaskBeforeHeader lines ↔ firstMarkedIsTask lines = true
  | [] => by simp [firstMarkedIsTask, not_taskBeforeHeader_nil]
  | line :: rest => by
    rw [taskBeforeHeader_cons, taskBeforeHeader_iff rest, firstMarkedIsTask]
    by_cases h1 : isSectionHeader line = true
    · simp [h1, isTaskLine_of_header line h1]
    · by_cases h2 : isTaskLine line = true
      · simp [h1, h2]
      · simp [h1, h2]

theorem parseLoop_null_fault_iff : ∀ (lines : List Str) (sections : List Section),
    parseLoop lines sections none = .error Fault.nullSection ↔ TaskBeforeHeader lines
  | [], sections => by simp [parseLoop, not_taskBeforeHeader_nil]
  | line :: rest, sections => by
    rw [taskBeforeHeader_cons]
    by_cases h1 : isSectionHeader line = true
    · rw [parseLoop_header _ _ _ _ h1]
      obtain ⟨r, hr⟩ := parseLoop_some_ok rest (pushCurrent sections none)
        { title := sectionTitle line, tasks := [] }
      simp [hr, h1, isTaskLine_of_header line h1]
    · by_cases h2 : isTaskLine line = true
      · rw [parseLoop_task_null _ _ _ h2]
        simp [h2]
      · rw [parseLoop_ignored _ _ _ _ (by simpa using h1) (by simpa using h2),
          parseLoop_null_fault_iff rest sections]
        simp [h1, h2]

theorem parseLoop_ok_or_fault (lines : List Str) (sections : List Section)
    (current : Option Section) :
    (∃ r, parseLoop lines sections current = .ok r) ∨
      parseLoop lines sections current = .error Fault.nullSection := by
  cases h : parseLoop lines sections current with
  | ok r => exact Or.inl ⟨r, rfl⟩
  | error e => cases e; exact Or.inr rfl

theorem parseTasks_str (text : Str) :
    parseTasks (.str text) = parseLoop (split '\n' text) [] none := by
  cases text with
  | nil => rfl
  | cons c cs => rfl

theorem parseLoop_pre : ∀ (pre rest : List Str) (sections : List Section)
    (current : Option Section),
    (∀ l ∈ pre, isSectionHeader l = false ∧ isTaskLine l = false) →
    parseLoop (pre ++ rest) sections current = parseLoop rest sections current
  | [], _, _, _, _ => rfl
  | l :: pre, rest, sections, current, h => by
    rw [List.cons_append, parseLoop_ignored _ _ _ _ (h l (List.mem_cons_self _ _)).1
      (h l (List.mem_cons_self _ _)).2]
    exact parseLoop_pre pre rest sections current
      (fun x hx => h x (List.mem_cons_of_mem _ hx))

theorem parseLoop_body : ∀ (body rest : List Str) (sections : List Section) (cur : Section),
    (∀ l ∈ body, isSectionHeader l = false) →
    parseLoop (body ++ rest) sections (some cur) =
      parseLoop rest sections
        (some { cur with tasks := cur.tasks ++ (body.filter isTaskLine).map parseTaskLine })
  | [], _, _, _, _ => by simp
  | l :: body, rest, sections, cur, h => by
    have hl := h l (List.mem_cons_self _ _)
    have hb : ∀ x ∈ body, isSectionHeader x = false :=
      fun x hx => h x (List.mem_cons_of_mem _ hx)
    by_cases h2 : isTaskLine l = true
    · rw [List.cons_append, parseLoop_task _ _ _ _ h2, parseLoop_body body rest _ _ hb]
      simp [List.filter_cons, h2]
    · rw [List.cons_append, parseLoop_ignored _ _ _ _ hl (by simpa using h2),
        parseLoop_body body rest _ _ hb]
      simp [List.filter_cons, h2]

theorem parseLoop_blocks : ∀ (bs : List (Str × List Str)) (sections : List Section)
    (current : Option Section),
    (∀ b ∈ bs, isSectionHeader b.1 = true ∧ ∀ l ∈ b.2, isSectionHeader l = false) →
    parseLoop (blockLines bs) sections current =
      .ok (pushCurrent sections current ++ bs.map sectionOfBlock)
  | [], sections, current, _ => by simp [blockLines, parseLoop]
  | b :: bs, sections, current, h => by
    have hb := h b (List.mem_cons_self _ _)
    rw [blockLines, parseLoop_header _ _ _ _ hb.1, parseLoop_body _ _ _ _ hb.2,
      parseLoop_blocks bs _ _ (fun x hx => h x (List.mem_cons_of_mem _ hx))]
    simp [pushCurrent, sectionOfBlock]

theorem exists_body_blocks : ∀ (lines : List Str),
    ∃ (body : List Str) (bs : List (Str × List Str)), lines = body ++ blockLines bs ∧
      (∀ l ∈ body, isSectionHeader l = false) ∧
      (∀ b ∈ bs, isSectionHeader b.1 = true ∧ ∀ l ∈ b.2, isSectionHeader l = false)
  | [] => ⟨[], [], rfl, by simp, by simp⟩
  | line :: rest => by
    obtain ⟨body, bs, e, hbody, hbs⟩ := exists_body_blocks rest
    by_cases h1 : isSectionHeader line = true
    · refine ⟨[], (line, body) :: bs, by simp [blockLines, e], by simp, ?_⟩
      intro b hb
      rcases List.mem_cons.1 hb with rfl | hb
      · exact ⟨h1, hbody⟩
      · exact hbs b hb
    · refine ⟨line :: body, bs, by simp [e], ?_, hbs⟩
      intro l hl
      rcases List.mem_cons.1 hl with rfl | hl
      · simpa using h1
      · exact hbody l hl

theorem exists_headerLedBlocks (lines : List Str) (h : ¬ TaskBeforeHeader lines) :
    ∃ pre bs, HeaderLedBlocks lines pre bs := by
  obtain ⟨body, bs, e, hbody, hbs⟩ := exists_body_blocks lines
  refine ⟨body, bs, e, ?_, hbs⟩
  intro l hl
  refine ⟨hbody l hl, ?_⟩
  by_contra ht
  obtain ⟨p, q, hpq⟩ := List.append_of_mem hl
  apply h
  refine ⟨p, l, q ++ blockLines bs, by simp [e, hpq], ?_, by simpa using ht⟩
  intro x hx
  exact hbody x (by simp [hpq, hx])

theorem isSectionHeader_iff (line : Str) :
    isSectionHeader line = true ↔ HasBothMarkers line := by
  simp only [isSectionHeader, startsWith, endsWith, Bool.and_eq_true,
    List.isPrefixOf_iff_prefix, List.isSuffixOf_iff_suffix, HasBothMarkers]
  constructor
  · rintro ⟨⟨r, hr⟩, ⟨q, hq⟩⟩
    exact ⟨⟨r, hr.symm⟩, ⟨q, hq.symm⟩⟩
  · rintro ⟨⟨r, hr⟩, ⟨q, hq⟩⟩
    exact ⟨⟨r, hr.symm⟩, ⟨q, hq.symm⟩⟩

theorem parseLoop_not_header (line : Str) (rest : List Str) (sections : List Section)
    (current : Option Section) (h : isSectionHeader line = false) :
    parseLoop (line :: rest) sections current =
      if startsWith ['*'] line then
        match current with
        | none => .error Fault.nullSection
        | some cur =>
          parseLoop rest sections
            (some { cur with tasks := cur.tasks ++ [parseTaskLine line] })
      else parseLoop rest sections current := by
  unfold isSectionHeader at h
  simp only [parseLoop, h, Bool.false_eq_true, if_false]

theorem parseTasks_single_line (line : Str) (hn : '\n' ∉ line) :
    parseTasks (.str line) = .ok [{ title := sectionTitle line, tasks := [] }] ↔
      isSectionHeader line = true := by
  rw [parseTasks_str, split_of_not_mem _ _ hn]
  by_cases h1 : isSectionHeader line = true
  · rw [parseLoop_header _ _ _ _ h1]
    simp [parseLoop, pushCurrent, h1]
  · have h1f : isSectionHeader line = false := by simpa using h1
    rw [parseLoop_not_header _ _ _ _ h1f]
    by_cases h2 : startsWith ['*'] line = true
    · simp [h2, h1f]
    · simp [h2, h1f, parseLoop, pushCurrent]

/-! ## The claims -/

/-- C6: `parseTasks` applied to the empty string, to `null` and to `undefined`
returns the empty array of sections, without a fault. -/
theorem parseTasks_empty_or_missing :
    parseTasks (.str []) = .ok [] ∧ parseTasks .null = .ok [] ∧
      parseTasks .undefined = .ok [] :=
  ⟨rfl, rfl, rfl⟩

/-- C7: for every checklist state and every address, two clicks on the same
checkbox leave the checked state read for that address as it was; and one click
on an address whose key is absent makes `checkedTasks[key] || false` read `true`. -/
theorem handleCheckboxChange_twice (st : CheckedTasks) (d s t : Nat) (u : Option Nat) :
    isChecked (handleCheckboxChange (handleCheckboxChange st d s t u) d s t u) d s t u
        = isChecked st d s t u ∧
      (st (addressKey d s t u) = none →
        readChecked (handleCheckboxChange st d s t u) (addressKey d s t u) = .bool true ∧
        isChecked (handleCheckboxChange st d s t u) d s t u = true) := by
  refine ⟨?_, ?_⟩
  · simp only [isChecked, toBoolean_readChecked, handleCheckboxChange, setKey_same]
    simp [toBoolean]
  · intro h
    simp [isChecked, readChecked, handleCheckboxChange, setKey_same, h, toBoolean]

theorem handleCheckboxChange_twice_witness :
    readChecked (handleCheckboxChange (fun _ => none) 1 0 0 none) (addressKey 1 0 0 none)
        = .bool true ∧
      isChecked (handleCheckboxChange (fun _ => none) 1 0 0 none) 1 0 0 none = true :=
  (handleCheckboxChange_twice (fun _ => none) 1 0 0 none).2 rfl

/-- C10: `handleSubmit` as a transition on `(plan, checkedTasks, loading)`: when
`createGoal` fails or its result has no `dailyPlan`, `plan` and `checkedTasks`
are unchanged; when it has a `dailyPlan`, `plan` becomes that array and
`checkedTasks` becomes the fresh object `initialChecks`, in which no key holds
`true`; and `loading` is `false` at the end in every case. -/
theorem handleSubmit_transition (st : UiState) (outcome : CreateGoalOutcome) :
    (handleSubmit st outcome).loading = false ∧
    (outcome = .rejected ∨ outcome = .resolved ⟨none⟩ →
      (handleSubmit st outcome).plan = st.plan ∧
      (handleSubmit st outcome).checkedTasks = st.checkedTasks) ∧
    (∀ dailyPlan, outcome = .resolved ⟨some dailyPlan⟩ →
      (handleSubmit st outcome).plan = some dailyPlan ∧
      (handleSubmit st outcome).checkedTasks = initialChecks dailyPlan ∧
      (∀ key, initialChecks dailyPlan key ≠ some (.bool true)) ∧
      ∀ d s t u, isChecked (initialChecks dailyPlan) d s t u = false) := by
  refine ⟨rfl, ?_, ?_⟩
  · rintro (h | h) <;> subst h <;> exact ⟨rfl, rfl⟩
  · intro dailyPlan h
    subst h
    refine ⟨rfl, rfl, ?_, ?_⟩
    · intro key
      rw [initialChecks_apply]
      split <;> simp
    · intro d s t u
      simp [isChecked, readChecked, initialChecks_addressKey, toBoolean]

theorem handleSubmit_transition_witness :
    (handleSubmit ⟨some [⟨1, []⟩], fun _ => none, false⟩ .rejected).plan = some [⟨1, []⟩] ∧
      (handleSubmit ⟨some [⟨1, []⟩], fun _ => none, false⟩ .rejected).checkedTasks
        = fun _ => none :=
  (handleSubmit_transition ⟨some [⟨1, []⟩], fun _ => none, false⟩ .rejected).2.1 (Or.inl rfl)

/-- C8: in the state a successful submit produces for a plan of any length, and
in every state reached from it by clicking other addresses only, the value
`checkedTasks[key] || false` read for a never-clicked address is `false`; the
buckets sit under the bare keys `0 .. n-1`, and no address key is a bare index. -/
theorem never_toggled_reads_false (dailyPlan : List DayPlan) (a : Address)
    (clicks : List Address) (h : a ∉ clicks) :
    readChecked (toggleAll (initialChecks dailyPlan) clicks)
        (addressKey a.dayIndex a.sectionIndex a.taskIndex a.subtaskIndex) = .bool false ∧
      isChecked (toggleAll (initialChecks dailyPlan) clicks)
        a.dayIndex a.sectionIndex a.taskIndex a.subtaskIndex = false ∧
      (∀ i, i < dailyPlan.length →
        initialChecks dailyPlan (numberToString i) = some .object) ∧
      (∀ i, addressKey a.dayIndex a.sectionIndex a.taskIndex a.subtaskIndex
        ≠ numberToString i) := by
  have hk : toggleAll (initialChecks dailyPlan) clicks
      (addressKey a.dayIndex a.sectionIndex a.taskIndex a.subtaskIndex) = none := by
    rw [toggleAll_other, initialChecks_addressKey]
    intro b hb e
    obtain ⟨h1, h2, h3, h4⟩ := addressKey_inj e
    apply h
    have : a = b := by
      cases a; cases b; simp_all
    exact this ▸ hb
  refine ⟨?_, ?_, ?_, ?_⟩
  · simp [readChecked, hk]
  · simp [isChecked, readChecked, hk, toBoolean]
  · intro i hi
    rw [initialChecks_apply, if_pos ⟨i, hi, rfl⟩]
  · intro i
    exact addressKey_ne_numberToString _ _ _ _ i

theorem never_toggled_reads_false_witness :
    readChecked (toggleAll (initialChecks [⟨1, []⟩, ⟨2, []⟩])
        [⟨1, 0, 1, none⟩, ⟨1, 0, 0, some 0⟩]) (addressKey 1 0 0 none) = .bool false :=
  (never_toggled_reads_false [⟨1, []⟩, ⟨2, []⟩] ⟨1, 0, 0, none⟩
    [⟨1, 0, 1, none⟩, ⟨1, 0, 0, some 0⟩] (by decide)).1

/-- C9: the key built by `handleCheckboxChange` is injective on addresses of
non-negative integers: equal keys force equal day, section and task and the same
subtask index or its absence on both sides (index 0 is present); hence a click
on one address leaves what is read for every other address unchanged. -/
theorem addressKey_injective_frame (d s t : Nat) (u : Option Nat)
    (d' s' t' : Nat) (u' : Option Nat) :
    (addressKey d s t u = addressKey d' s' t' u' → d = d' ∧ s = s' ∧ t = t' ∧ u = u') ∧
    addressKey d s t (some 0) ≠ addressKey d s t none ∧
    (¬ (d = d' ∧ s = s' ∧ t = t' ∧ u = u') → ∀ st : CheckedTasks,
      readChecked (handleCheckboxChange st d s t u) (addressKey d' s' t' u')
        = readChecked st (addressKey d' s' t' u') ∧
      isChecked (handleCheckboxChange st d s t u) d' s' t' u' = isChecked st d' s' t' u') := by
  refine ⟨addressKey_inj, ?_, ?_⟩
  · intro e
    have := (addressKey_inj e).2.2.2
    simp at this
  · intro hne st
    have hk : addressKey d' s' t' u' ≠ addressKey d s t u := by
      intro e
      obtain ⟨h1, h2, h3, h4⟩ := addressKey_inj e
      exact hne ⟨h1.symm, h2.symm, h3.symm, h4.symm⟩
    simp [isChecked, readChecked, handleCheckboxChange_other _ _ _ _ _ _ hk]

theorem addressKey_injective_frame_witness :
    isChecked (handleCheckboxChange (fun _ => none) 1 0 0 none) 1 0 0 (some 0)
      = isChecked (fun _ => none) 1 0 0 (some 0) :=
  ((addressKey_injective_frame 1 0 0 none 1 0 0 (some 0)).2.2 (by decide) (fun _ => none)).2

/-- C5 (as stated, refuted): in `***` followed by `* x` the first line starts
with `*` and, being shorter than 4, is no section header as the specification
words it, so a task line stands before every such header; yet the code takes
`***` for a header and returns one section, without a fault. -/
theorem no_fault_after_short_header :
    split '\n' "***\n* x".toList = ["***".toList, "* x".toList] ∧
    specIsSectionHeader "***".toList = false ∧ specIsTaskLine "***".toList = true ∧
    parseTasks (.str "***\n* x".toList) =
      .ok [{ title := [], tasks := [{ mainTask := some ['x'], subtasks := [] }] }] := by
  decide

/-- C5 (amended): with a section header being any line that starts with `**`
and ends with `**`, whatever its length, `parseTasks` faults, by reading
`tasks` of the null `currentSection`, exactly when some line that starts with
`*` and is not such a header stands before every such header; for every other
argument it returns an array. -/
theorem parseTasks_fault_iff (arg : JsArg) :
    (parseTasks arg = .error Fault.nullSection ↔ TaskBeforeHeader (linesOf arg)) ∧
      (¬ TaskBeforeHeader (linesOf arg) → ∃ sections, parseTasks arg = .ok sections) := by
  have key : parseTasks arg = .error Fault.nullSection ↔ TaskBeforeHeader (linesOf arg) := by
    cases arg with
    | null => simp [parseTasks, linesOf, not_taskBeforeHeader_nil]
    | undefined => simp [parseTasks, linesOf, not_taskBeforeHeader_nil]
    | str text => rw [parseTasks_str, linesOf, parseLoop_null_fault_iff]
  refine ⟨key, fun h => ?_⟩
  cases hres : parseTasks arg with
  | ok r => exact ⟨r, rfl⟩
  | error e =>
    cases e
    exact absurd (key.1 hres) h

theorem parseTasks_fault_iff_witness :
    ∃ sections, parseTasks (.str "intro\n**A**\n* x".toList) = .ok sections :=
  (parseTasks_fault_iff (.str "intro\n**A**\n* x".toList)).2
    ((taskBeforeHeader_iff _).not.2 (by decide))

/-- C1 (as stated, refuted): in `**A**`, `***`, `* x` the only section header
as the specification words it is the first line, and the two lines after it
are task lines, so the claim gives one section with two tasks; the code takes
`***` for a header and returns two sections, the first without tasks. -/
theorem short_header_splits_section :
    split '\n' "**A**\n***\n* x".toList = ["**A**".toList, "***".toList, "* x".toList] ∧
    (["**A**".toList, "***".toList, "* x".toList].filter specIsSectionHeader
      = ["**A**".toList]) ∧
    (["**A**".toList, "***".toList, "* x".toList].filter specIsTaskLine
      = ["***".toList, "* x".toList]) ∧
    parseTasks (.str "**A**\n***\n* x".toList) =
      .ok [{ title := ['A'], tasks := [] },
           { title := [], tasks := [{ mainTask := some ['x'], subtasks := [] }] }] := by
  decide

/-- C1 (amended): with a section header being any line that starts with `**`
and ends with `**`, whatever its length, and a task line a line that starts
with `*` and is not such a header: for every plan text in which no task line
stands before the first header, the lines are a run of ignored lines followed
by header-led blocks, and `parseTasks` returns one section per block, in source
order, whose tasks are the task lines of the block, in source order; so two
headers in a row give two sections, the first without tasks. -/
theorem parseTasks_sections (text : Str) (h : ¬ TaskBeforeHeader (split '\n' text)) :
    (∃ pre bs, HeaderLedBlocks (split '\n' text) pre bs) ∧
      ∀ pre bs, HeaderLedBlocks (split '\n' text) pre bs →
        parseTasks (.str text) = .ok (bs.map sectionOfBlock) := by
  refine ⟨exists_headerLedBlocks _ h, ?_⟩
  rintro pre bs ⟨e, hpre, hbs⟩
  rw [parseTasks_str, e, parseLoop_pre _ _ _ _ hpre, parseLoop_blocks _ _ _ hbs]
  simp [pushCurrent]

theorem parseTasks_sections_witness :
    parseTasks (.str "note\n**A**\n**B**\n\n* x".toList) =
      .ok [{ title := ['A'], tasks := [] },
           { title := ['B'], tasks := [{ mainTask := some ['x'], subtasks := [] }] }] :=
  (parseTasks_sections "note\n**A**\n**B**\n\n* x".toList
      ((taskBeforeHeader_iff _).not.2 (by decide))).2
    ["note".toList] [("**A**".toList, []), ("**B**".toList, [[], "* x".toList])]
    ⟨by decide, by decide, by decide⟩

/-- C2: for a task line with at most one colon, `mainTask` is the trimmed text
between the leading `*` and the colon (the whole trimmed remainder without a
colon); `subtasks` is empty without a colon or when the trimmed text after the
colon is empty, and otherwise the pieces of that text split on `•`, each
trimmed, in order; with the example of the specification. -/
theorem parseTaskLine_at_most_one_colon (a b : Str) (ha : ':' ∉ a) (hb : ':' ∉ b) :
    parseTaskLine ('*' :: a) = { mainTask := some (trim a), subtasks := [] } ∧
    parseTaskLine ('*' :: (a ++ ':' :: b)) =
      { mainTask := some (trim a),
        subtasks := if trim b = [] then [] else (split '•' (trim b)).map trim } ∧
    parseTasks (.str "**Morning**\n* Read: Ch1 • Ch2\n* Write".toList) =
      .ok [{ title := "Morning".toList,
             tasks := [{ mainTask := some "Read".toList,
                         subtasks := ["Ch1".toList, "Ch2".toList] },
                       { mainTask := some "Write".toList, subtasks := [] }] }] :=
  ⟨parseTaskLine_no_colon a ha, parseTaskLine_one_colon a b ha hb, by decide⟩

theorem parseTaskLine_at_most_one_colon_witness :
    parseTaskLine "* Read: Ch1 • Ch2".toList =
      { mainTask := some (trim " Read".toList),
        subtasks := if trim " Ch1 • Ch2".toList = [] then []
          else (split '•' (trim " Ch1 • Ch2".toList)).map trim } :=
  (parseTaskLine_at_most_one_colon " Read".toList " Ch1 • Ch2".toList
    (by decide) (by decide)).2.1

/-- C3: on the task line `* Read: 10:30 session` the code keeps only the text
between the first and the second colon: the subtasks are `["10"]`, and
`30 session` is lost, where the claim keeps `10:30 session`. -/
theorem parseTasks_second_colon_lost :
    parseTasks (.str "**S**\n* Read: 10:30 session".toList) =
        .ok [{ title := ['S'],
               tasks := [{ mainTask := some "Read".toList, subtasks := ["10".toList] }] }] ∧
      parseTaskLine "* Read: 10:30 session".toList ≠
        { mainTask := some "Read".toList, subtasks := ["10:30 session".toList] } := by
  decide

/-- C4 (as stated, refuted): the lines `**` and `***`, of length 2 and 3, pass
the header test and each starts a new section, with an empty title. -/
theorem short_asterisk_line_is_header :
    isSectionHeader "***".toList = true ∧ "***".toList.length < 4 ∧
    isSectionHeader "**".toList = true ∧ "**".toList.length < 4 ∧
    parseTasks (.str "***".toList) = .ok [{ title := [], tasks := [] }] ∧
    parseTasks (.str "**".toList) = .ok [{ title := [], tasks := [] }] := by
  decide

/-- C4 (amended): `parseTasks` treats a line as a section header exactly when
it starts with `**` and ends with `**`, with no test of its length and the two
markers free to overlap.  A text of one line gives the one section titled
`line.slice(2, -2).trim()` exactly for such a line; in the loop such a line, of
length at least 2, always opens a new section with that title, and every other
line opens none: it is a task line when it starts with `*` and is skipped
otherwise.  The title of `**m**` is the trimmed `m`. -/
theorem sectionHeader_iff_markers (line : Str) :
    ('\n' ∉ line →
      (parseTasks (.str line) = .ok [{ title := sectionTitle line, tasks := [] }] ↔
        HasBothMarkers line)) ∧
    (HasBothMarkers line →
      2 ≤ line.length ∧
      ∀ rest sections current, parseLoop (line :: rest) sections current =
        parseLoop rest (pushCurrent sections current)
          (some { title := sectionTitle line, tasks := [] })) ∧
    (¬ HasBothMarkers line →
      ∀ rest sections current, parseLoop (line :: rest) sections current =
        if startsWith ['*'] line then
          match current with
          | none => .error Fault.nullSection
          | some cur =>
            parseLoop rest sections
              (some { cur with tasks := cur.tasks ++ [parseTaskLine line] })
        else parseLoop rest sections current) ∧
    (∀ m, line = '*' :: '*' :: (m ++ ['*', '*']) →
      HasBothMarkers line ∧ sectionTitle line = trim m) := by
  refine ⟨?_, ?_, ?_, ?_⟩
  · intro hn
    rw [parseTasks_single_line line hn, isSectionHeader_iff]
  · intro h
    refine ⟨?_, fun rest sections current =>
      parseLoop_header _ _ _ _ ((isSectionHeader_iff line).2 h)⟩
    obtain ⟨⟨r, hr⟩, -⟩ := h
    simp [hr]
  · intro h rest sections current
    apply parseLoop_not_header
    cases hh : isSectionHeader line with
    | false => rfl
    | true => exact absurd ((isSectionHeader_iff line).1 hh) h
  · intro m hm
    refine ⟨⟨⟨_, hm⟩, ⟨'*' :: '*' :: m, by simp [hm]⟩⟩, ?_⟩
    rw [hm, sectionTitle, sliceHeader]

theorem sectionHeader_iff_markers_witness :
    parseTasks (.str "***".toList) =
      .ok [{ title := sectionTitle "***".toList, tasks := [] }] :=
  ((sectionHeader_iff_markers "***".toList).1 (by decide)).2
    ⟨⟨['*'], rfl⟩, ⟨['*'], rfl⟩⟩

end GoalGenie
